import Mathlib

/-!
Verification of the turbot Terraform provider's reconciliation core:
body normalizer, alias resolver, diff-suppression policy, version
resolution engine, convergence poller and the lifecycle controllers
that orchestrate them (sources: `resource_turbot_resource.go`,
`resource_turbot_mod.go`, `resource_folder.go`,
`data_source_turbot_control.go`).

The external API client, the Go `encoding/json` package and the
Masterminds semver library are external collaborators; they are modelled
at their interface boundary (an oracle structure of response functions,
a parse-outcome representation of JSON texts, and a semantic-version
parser/order/constraint model, respectively).  Everything else is a
direct translation of the Go source.
-/

namespace Turbot

/-- Errors surfaced by the external API client.  The provider only ever
inspects an error through `apiclient.NotFoundError`, so a Go `error` is
modelled as its message together with whether that predicate holds. -/
inductive TError where
  | notFound (msg : String)
  | other (msg : String)
deriving DecidableEq, Repr

/-- Predicate `apiclient.NotFoundError(err)`. -/
def notFoundError : TError → Bool
  | .notFound _ => true
  | .other _ => false

/-- Scalar JSON values.  Nested arrays/objects are not needed by any of
the verified properties (all of which concern top-level structure), and
Go numbers are modelled as integers; the normalizer under verification
never inspects a value. -/
inductive JVal where
  | null
  | bool (b : Bool)
  | num (n : Int)
  | str (s : String)
deriving DecidableEq, Repr

/-- A JSON body string, modelled by its parse outcome: `.valid fields`
stands for a text that `json.Unmarshal` parses into the object with the
given top-level fields in textual order (later duplicates override
earlier ones when the map is built), and `.invalid raw` for a text that
does not parse as a JSON object.  A `.valid` text is never the empty
string. -/
inductive JsonText where
  | valid (fields : List (String × JVal))
  | invalid (raw : String)
deriving DecidableEq, Repr

/-- Test `old == ""` on the modelled text. -/
def JsonText.isEmptyStr : JsonText → Bool
  | .valid _ => false
  | .invalid raw => raw = ""

/-- Top-level key list of a field list, in textual order. -/
def jkeys (ps : List (String × JVal)) : List String := ps.map Prod.fst

/-- Lookup in the Go map built from a field list: later duplicate keys
override earlier ones. -/
def mapGet : List (String × JVal) → String → Option JVal
  | [], _ => none
  | p :: rest, k =>
    match mapGet rest k with
    | some v => some v
    | none => if p.1 = k then some p.2 else none

/-- The key set of the Go map built from a field list, in the canonical
(sorted) order in which `json.Marshal` emits map keys. -/
def sortedKeys (ps : List (String × JVal)) : List String :=
  List.insertionSort (· ≤ ·) (jkeys ps).dedup

/-- Canonical field list of the Go map built from `ps`: one entry per
distinct key, values resolved last-wins, keys sorted as `json.Marshal`
sorts map keys. -/
def canonFields (ps : List (String × JVal)) : List (String × JVal) :=
  (sortedKeys ps).filterMap fun k => (mapGet ps k).map fun v => (k, v)

/-- Function `propertiesFromBody`: given a json string, unmarshal into a map and
return a map of alias -> propertyName (the identity mapping on the top
level keys).  The Go property map is unordered; it is represented in
canonical key order. -/
def propertiesFromBody : JsonText → Except String (List (String × String))
  | .invalid _ => .error "invalid json"
  | .valid ps => .ok ((sortedKeys ps).map fun k => (k, k))

/-- Function `bodyFromProperties`: given a map of resource properties, marshal
into a json string.  `json.MarshalIndent` sorts map keys, producing the
canonical text; on a string-keyed map of JSON values it cannot fail, so
the source's error branch is dead in the model. -/
def bodyFromProperties (d : List (String × JVal)) : Except String JsonText :=
  .ok (.valid (canonFields d))

/-- Function `formatBody`: apply standard formatting to the json body to enable
easy diffing; if the body does not unmarshal, ignore the error and
return the original body.  (On a marshalling error the source returns
the shadowed, emptied `body` variable; that branch is unreachable.) -/
def formatBody : JsonText → JsonText
  | .invalid raw => .invalid raw
  | .valid ps =>
    match bodyFromProperties ps with
    | .ok body => body
    | .error _ => .invalid ""

/-- Function `suppressIfBodyMatches`: apply standard formatting to old and new
bodys then compare. -/
def suppressIfBodyMatches (k : String) (old newValue : JsonText) : Bool :=
  if old.isEmptyStr || newValue.isEmptyStr then false
  else formatBody old = formatBody newValue

/-- Accessor `d.GetOk("parent_akas")`: `ok` is false when the field is unset or
still holds its zero value (for a list, the empty list). -/
def getOkParentAkas (akas : Option (List String)) : Option (List String) :=
  match akas with
  | none => none
  | some l => if l.isEmpty then none else some l

/-- Function `supressIfParentAkaMatches`: if the new value of parent exists in
`parent_akas`, suppress the diff.  The `([]interface{})` type assertion
always succeeds for a TypeList-of-string field, so it is not modelled as
a separate failure. -/
def supressIfParentAkaMatches (k old newValue : String)
    (parentAkas : Option (List String)) : Bool :=
  match getOkParentAkas parentAkas with
  | none => false
  | some akas => akas.contains newValue

/-- C7 -- the parent diff-suppression predicate suppresses exactly when the
stored `parent_akas` list is present, non-empty and contains the new parent
value; an absent (or still-zero) list never suppresses. -/
theorem parent_aka_suppression_iff (k old newValue : String)
    (parentAkas : Option (List String)) :
    supressIfParentAkaMatches k old newValue parentAkas = true ↔
      ∃ l, parentAkas = some l ∧ l ≠ [] ∧ newValue ∈ l := by
  unfold supressIfParentAkaMatches getOkParentAkas
  cases parentAkas with
  | none => simp
  | some l =>
    cases l with
    | nil => simp
    | cons a as =>
      simp [List.contains, List.elem_iff]

theorem jkeys_cons (p : String × JVal) (l : List (String × JVal)) :
    jkeys (p :: l) = p.1 :: jkeys l := rfl

theorem mapGet_eq_none_iff (ps : List (String × JVal)) (k : String) :
    mapGet ps k = none ↔ k ∉ jkeys ps := by
  induction ps with
  | nil => simp [mapGet, jkeys]
  | cons p rest ih =>
    rw [jkeys_cons, List.mem_cons]
    constructor
    · intro h
      simp only [mapGet] at h
      cases hr : mapGet rest k with
      | some v => rw [hr] at h; exact absurd h (by simp)
      | none =>
        rw [hr] at h
        by_cases hp : p.1 = k
        · rw [if_pos hp] at h; exact absurd h (by simp)
        · push_neg
          exact ⟨fun hk => hp hk.symm, ih.mp hr⟩
    · intro h
      push_neg at h
      have hr : mapGet rest k = none := ih.mpr h.2
      simp only [mapGet, hr]
      exact if_neg fun hp => h.1 hp.symm

theorem mapGet_isSome_of_mem {ps : List (String × JVal)} {k : String}
    (h : k ∈ jkeys ps) : (mapGet ps k).isSome := by
  cases hm : mapGet ps k with
  | none => exact absurd h ((mapGet_eq_none_iff ps k).mp hm)
  | some v => rfl

theorem mapGet_perm {ps qs : List (String × JVal)} (h : ps.Perm qs) :
    (jkeys ps).Nodup → ∀ k, mapGet ps k = mapGet qs k := by
  induction h with
  | nil => intro _ _; rfl
  | cons p h ih =>
    intro hnd k
    rw [jkeys_cons] at hnd
    obtain ⟨-, hnd'⟩ := List.nodup_cons.mp hnd
    simp only [mapGet, ih hnd' k]
  | swap x y l =>
    intro hnd k
    rw [jkeys_cons, jkeys_cons] at hnd
    obtain ⟨hy, -⟩ := List.nodup_cons.mp hnd
    have hxy : y.1 ≠ x.1 := fun h => hy (h ▸ List.mem_cons_self _ _)
    simp only [mapGet]
    cases hl : mapGet l k with
    | some v => rfl
    | none =>
      by_cases hx : x.1 = k
      · have hyk : y.1 ≠ k := fun h => hxy (h.trans hx.symm)
        simp [hx, hyk]
      · by_cases hy2 : y.1 = k <;> simp [hx, hy2]
  | trans h₁ h₂ ih₁ ih₂ =>
    intro hnd k
    have hnd₂ : (jkeys _).Nodup := ((h₁.map Prod.fst).nodup_iff).mp hnd
    exact (ih₁ hnd k).trans (ih₂ hnd₂ k)

theorem sortedKeys_perm {ps qs : List (String × JVal)} (h : ps.Perm qs) :
    sortedKeys ps = sortedKeys qs := by
  have hd : (jkeys ps).dedup.Perm (jkeys qs).dedup := (h.map Prod.fst).dedup
  exact List.eq_of_perm_of_sorted
    ((List.perm_insertionSort _ _).trans
      (hd.trans (List.perm_insertionSort _ _).symm))
    (List.sorted_insertionSort _ _) (List.sorted_insertionSort _ _)

theorem canonFields_perm {ps qs : List (String × JVal)} (h : ps.Perm qs)
    (hnd : (jkeys ps).Nodup) : canonFields ps = canonFields qs := by
  unfold canonFields
  rw [sortedKeys_perm h]
  exact List.filterMap_congr fun k _ => by rw [mapGet_perm h hnd k]

theorem sortedKeys_nodup (ps : List (String × JVal)) : (sortedKeys ps).Nodup :=
  ((List.perm_insertionSort _ _).nodup_iff).mpr (List.nodup_dedup _)

theorem sortedKeys_sorted (ps : List (String × JVal)) :
    (sortedKeys ps).Sorted (· ≤ ·) := List.sorted_insertionSort _ _

theorem filterMap_keys_eq_self {ps : List (String × JVal)}
    (hnd : (jkeys ps).Nodup) :
    (jkeys ps).filterMap (fun k => (mapGet ps k).map fun v => (k, v)) = ps := by
  induction ps with
  | nil => rfl
  | cons p rest ih =>
    rw [jkeys_cons] at hnd
    obtain ⟨hmem, hnd'⟩ := List.nodup_cons.mp hnd
    have hhead : mapGet (p :: rest) p.1 = some p.2 := by
      simp [mapGet, (mapGet_eq_none_iff rest p.1).mpr hmem]
    have htail : ∀ k ∈ jkeys rest,
        mapGet (p :: rest) k = mapGet rest k := by
      intro k hk
      have := mapGet_isSome_of_mem hk
      simp only [mapGet]
      cases hm : mapGet rest k with
      | some v => rfl
      | none => simp [hm] at this
    calc (jkeys (p :: rest)).filterMap
          (fun k => (mapGet (p :: rest) k).map fun v => (k, v))
        = p :: (jkeys rest).filterMap
            (fun k => (mapGet (p :: rest) k).map fun v => (k, v)) := by
          simp [jkeys, hhead]
      _ = p :: (jkeys rest).filterMap
            (fun k => (mapGet rest k).map fun v => (k, v)) := by
          rw [List.filterMap_congr fun k hk => by rw [htail k hk]]
      _ = p :: rest := by rw [ih hnd']

theorem canonFields_eq_self {ps : List (String × JVal)}
    (hs : (jkeys ps).Sorted (· < ·)) : canonFields ps = ps := by
  have hnd : (jkeys ps).Nodup := hs.nodup
  have hkeys : sortedKeys ps = jkeys ps := by
    unfold sortedKeys
    rw [List.dedup_eq_self.mpr hnd]
    have hle : (jkeys ps).Sorted (· ≤ ·) := hs.imp fun h => le_of_lt h
    exact hle.insertionSort_eq
  unfold canonFields
  rw [hkeys]
  exact filterMap_keys_eq_self hnd

theorem jkeys_canonFields (ps : List (String × JVal)) :
    jkeys (canonFields ps) = sortedKeys ps := by
  unfold canonFields jkeys
  rw [List.map_filterMap]
  have : ∀ k ∈ sortedKeys ps,
      ((mapGet ps k).map fun v => (k, v)).map Prod.fst = some k := by
    intro k hk
    have hmem : k ∈ jkeys ps := by
      have : k ∈ (jkeys ps).dedup :=
        ((List.perm_insertionSort _ _).mem_iff).mp hk
      exact (List.mem_dedup).mp this
    cases hm : mapGet ps k with
    | none => exact absurd hmem (by simpa using (mapGet_eq_none_iff ps k).mp hm)
    | some v => rfl
  calc (sortedKeys ps).filterMap
        (fun k => ((mapGet ps k).map fun v => (k, v)).map Prod.fst)
      = (sortedKeys ps).filterMap (fun k => some k) := by
        exact List.filterMap_congr fun k hk => this k hk
    _ = sortedKeys ps := by simp

theorem canonFields_sorted_keys (ps : List (String × JVal)) :
    (jkeys (canonFields ps)).Sorted (· < ·) := by
  rw [jkeys_canonFields]
  exact (sortedKeys_sorted ps).lt_of_le (sortedKeys_nodup ps)

/-- C8 -- normalization is invariant under top-level key reordering: two
JSON texts parsing to objects that are permutations of one another (with
the distinct keys any JSON object has) normalize identically, so the body
diff-suppression predicate reports no change for them; it reports a real
change whenever either side is the empty string. -/
theorem normalize_perm_invariant_and_body_suppression
    (pa pb : List (String × JVal)) (ea eb : JsonText)
    (hnd : (jkeys pa).Nodup) (hperm : pa.Perm pb) :
    formatBody (.valid pa) = formatBody (.valid pb)
    ∧ suppressIfBodyMatches "body" (.valid pa) (.valid pb) = true
    ∧ (ea.isEmptyStr = true ∨ eb.isEmptyStr = true →
        suppressIfBodyMatches "body" ea eb = false) := by
  have hfb : formatBody (.valid pa) = formatBody (.valid pb) := by
    simp only [formatBody, bodyFromProperties]
    rw [canonFields_perm hperm hnd]
  refine ⟨hfb, ?_, ?_⟩
  · simp [suppressIfBodyMatches, JsonText.isEmptyStr, hfb]
  · intro h
    unfold suppressIfBodyMatches
    rcases h with h | h <;> simp [h]

/-- Closed instantiation of
`normalize_perm_invariant_and_body_suppression` at a concrete reordered
pair and a concrete empty side. -/
theorem normalize_perm_invariant_witness :
    formatBody (.valid [("b", JVal.num 2), ("a", JVal.str "x")])
        = formatBody (.valid [("a", JVal.str "x"), ("b", JVal.num 2)])
    ∧ suppressIfBodyMatches "body"
        (.valid [("b", JVal.num 2), ("a", JVal.str "x")])
        (.valid [("a", JVal.str "x"), ("b", JVal.num 2)]) = true
    ∧ (JsonText.isEmptyStr (.invalid "") = true
        ∨ JsonText.isEmptyStr (.valid [("a", JVal.null)]) = true →
        suppressIfBodyMatches "body" (.invalid "")
          (.valid [("a", JVal.null)]) = false) :=
  normalize_perm_invariant_and_body_suppression
    [("b", JVal.num 2), ("a", JVal.str "x")]
    [("a", JVal.str "x"), ("b", JVal.num 2)]
    (.invalid "") (.valid [("a", JVal.null)])
    (by decide) (by decide)

/-- Conversion the §8 round trip needs: the property map produced by
`propertiesFromBody` (`map[string]string`) enters the
`map[string]interface{}` parameter of `bodyFromProperties` as JSON
string values. -/
def propsAsData (props : List (String × String)) : List (String × JVal) :=
  props.map fun p => (p.1, .str p.2)

/-- The round-trip composite
`bodyFromProperties(propertiesFromBody(normalize(x)))`, with
`normalize = formatBody`. -/
def roundTrip (x : JsonText) : Except String JsonText :=
  match propertiesFromBody (formatBody x) with
  | .error e => .error e
  | .ok props => bodyFromProperties (propsAsData props)

theorem sortedKeys_canonFields (ps : List (String × JVal)) :
    sortedKeys (canonFields ps) = sortedKeys ps := by
  show List.insertionSort (· ≤ ·) (jkeys (canonFields ps)).dedup = sortedKeys ps
  rw [jkeys_canonFields, List.dedup_eq_self.mpr (sortedKeys_nodup ps)]
  exact (sortedKeys_sorted ps).insertionSort_eq

/-- C6 (amended) -- the round trip does not reproduce an arbitrary object:
it always produces the identity key-document, mapping each (deduplicated,
sorted) top-level key of `x` to its own name as a string value.  In
particular the key set of `x` is preserved, and `x` itself is reproduced
exactly when every top-level value of `x` is the string equal to its
key. -/
theorem round_trip_yields_key_identity_document (ps : List (String × JVal)) :
    roundTrip (.valid ps)
      = .ok (.valid ((sortedKeys ps).map fun k => (k, JVal.str k))) := by
  have hprops : propertiesFromBody (.valid (canonFields ps))
      = .ok ((sortedKeys ps).map fun k => (k, k)) := by
    simp [propertiesFromBody, sortedKeys_canonFields]
  have hdata : propsAsData ((sortedKeys ps).map fun k => (k, k))
      = (sortedKeys ps).map fun k => (k, JVal.str k) := by
    unfold propsAsData
    rw [List.map_map]
    rfl
  have hsortedlt :
      (jkeys ((sortedKeys ps).map fun k => (k, JVal.str k))).Sorted (· < ·) := by
    have hk : jkeys ((sortedKeys ps).map fun k => (k, JVal.str k))
        = sortedKeys ps := by
      unfold jkeys
      rw [List.map_map]
      exact List.map_id _
    rw [hk]
    exact (sortedKeys_sorted ps).lt_of_le (sortedKeys_nodup ps)
  have hfmt : formatBody (.valid ps) = .valid (canonFields ps) := rfl
  unfold roundTrip
  rw [hfmt, hprops]
  show bodyFromProperties (propsAsData ((sortedKeys ps).map fun k => (k, k)))
      = .ok (.valid ((sortedKeys ps).map fun k => (k, JVal.str k)))
  rw [hdata]
  have hself : canonFields ((sortedKeys ps).map fun k => (k, JVal.str k))
      = (sortedKeys ps).map fun k => (k, JVal.str k) :=
    canonFields_eq_self hsortedlt
  simp [bodyFromProperties, hself]

/-- C6 (counterexample) -- at the concrete valid JSON object
`{"a": 1}` the round trip yields `{"a": "a"}`, which is not structurally
equal to the input (both sides shown in canonical form). -/
theorem round_trip_counterexample :
    roundTrip (.valid [("a", JVal.num 1)])
        = .ok (.valid [("a", JVal.str "a")])
    ∧ formatBody (.valid [("a", JVal.str "a")])
        ≠ formatBody (.valid [("a", JVal.num 1)]) := by
  constructor
  · rfl
  · decide

/-- A parsed semantic version: numeric `major.minor.patch` core with
optional pre-release identifiers (build metadata does not affect
ordering and is dropped at parse time).  Models the version type of the
external Masterminds semver library at its interface. -/
structure SemVer where
  major : Nat
  minor : Nat
  patch : Nat
  pre : List String
deriving DecidableEq, Repr

/-- Split a character list at every occurrence of `sep`
(`strings.Split` for a one-character separator). -/
def splitOnCharAux (sep : Char) : List Char → List Char → List (List Char)
  | [], acc => [acc.reverse]
  | c :: rest, acc =>
    if c = sep then acc.reverse :: splitOnCharAux sep rest []
    else splitOnCharAux sep rest (c :: acc)

def splitOnChar (sep : Char) (cs : List Char) : List String :=
  (splitOnCharAux sep cs []).map List.asString

/-- Split at the *first* occurrence of `sep`: the part before it, and the
part after it when it occurs. -/
def breakOnChar (sep : Char) : List Char → List Char × Option (List Char)
  | [] => ([], none)
  | c :: rest =>
    if c = sep then ([], some rest)
    else
      let r := breakOnChar sep rest
      (c :: r.1, r.2)

/-- A strictly numeric identifier and its value. -/
def parseNumeric (s : String) : Option Nat :=
  let cs := s.toList
  if cs.isEmpty then none
  else if cs.all Char.isDigit then
    some (cs.foldl (fun n c => 10 * n + (c.toNat - 48)) 0)
  else none

/-- Parser `semver.NewVersion`: parse `major.minor.patch[-pre][+build]` (build
metadata, everything after the first `+`, is dropped; the pre-release
part is everything after the first `-`).  The library also accepts
abbreviated forms such as `1.2`; the canonical full form is all the
provider's inputs use. -/
def newVersion (s : String) : Option SemVer :=
  let noBuild := (breakOnChar '+' s.toList).1
  let broken := breakOnChar '-' noBuild
  let pre : List String :=
    match broken.2 with
    | none => []
    | some cs => splitOnChar '.' cs
  match splitOnChar '.' broken.1 with
  | [ma, mi, pa] =>
    match parseNumeric ma, parseNumeric mi, parseNumeric pa with
    | some a, some b, some c => some ⟨a, b, c, pre⟩
    | _, _, _ => none
  | _ => none

/-- Pre-release identifier order (semver rule 11): numeric identifiers
compare numerically and rank below alphanumeric ones; alphanumeric
identifiers compare lexically. -/
def identLt (a b : String) : Bool :=
  match parseNumeric a, parseNumeric b with
  | some x, some y => decide (x < y)
  | some _, none => true
  | none, some _ => false
  | none, none => decide (a < b)

/-- Pre-release identifier lists compare position by position; a strict
prefix ranks lower. -/
def preLt : List String → List String → Bool
  | [], [] => false
  | [], _ :: _ => true
  | _ :: _, [] => false
  | a :: as, b :: bs => if a = b then preLt as bs else identLt a b

/-- The standard strict order on semantic versions: numeric core first;
on an equal core a release outranks every pre-release and pre-releases
compare by `preLt`. -/
def semverLt (x y : SemVer) : Bool :=
  if x.major ≠ y.major then decide (x.major < y.major)
  else if x.minor ≠ y.minor then decide (x.minor < y.minor)
  else if x.patch ≠ y.patch then decide (x.patch < y.patch)
  else match x.pre, y.pre with
       | [], _ => false
       | _ :: _, [] => true
       | a :: as, b :: bs => preLt (a :: as) (b :: bs)

/-- The constraint forms the provider exercises, modelling
`semver.NewConstraint` at its interface: wildcard (the schema default
`*`), caret and greater-equal ranges, and an exact version.  As in the
library, a constraint without pre-release admits no pre-release
version. -/
inductive Constraint where
  | wildcard
  | caret (v : SemVer)
  | geq (v : SemVer)
  | exact (v : SemVer)
deriving DecidableEq, Repr

def newConstraint (s : String) : Option Constraint :=
  if s = "*" || s = "" then some .wildcard
  else
    match s.toList with
    | '^' :: rest => (newVersion rest.asString).map .caret
    | '>' :: '=' :: rest => (newVersion rest.asString).map .geq
    | _ => (newVersion s).map .exact

def Constraint.check : Constraint → SemVer → Bool
  | .wildcard, v => v.pre.isEmpty
  | .caret w, v => v.pre.isEmpty && v.major == w.major && !(semverLt v w)
  | .geq w, v => v.pre.isEmpty && !(semverLt v w)
  | .exact w, v => v == w

/-- One entry of the catalogue returned by `client.GetModVersions`. -/
structure ModVersion where
  version : String
  status : String
deriving DecidableEq, Repr

/-- The `for _, modVersion := range modVersions` loop of
`getLatestCompatibleVersion`, with `latestCompatibleVersion` as the
accumulator: an `available` entry that fails `semver.NewVersion` aborts
the whole call; an entry passing `c.Check` *overwrites* the accumulator
with its version string. -/
def getLatestCompatibleLoop (c : Constraint) :
    List ModVersion → String → Except TError String
  | [], latestCompatibleVersion => .ok latestCompatibleVersion
  | modVersion :: rest, latestCompatibleVersion =>
    if modVersion.status = "available" then
      match newVersion modVersion.version with
      | none => .error (.other "invalid semantic version")
      | some v =>
        getLatestCompatibleLoop c rest
          (if c.check v then modVersion.version else latestCompatibleVersion)
    else getLatestCompatibleLoop c rest latestCompatibleVersion

/-- Function `getLatestCompatibleVersion`.  The source reads `version`, `org` and
`mod` from the resource data and fetches the catalogue through the
client; catalogue retrieval is lifted to a parameter here (see
`getLatestCompatibleVersionM` for the composition with the client
call). -/
def getLatestCompatibleVersion (version : String)
    (modVersions : List ModVersion) : Except TError String :=
  match newConstraint version with
  | none => .error (.other "improper constraint")
  | some c => getLatestCompatibleLoop c modVersions ""

/-- Follows the spec's words (§4.4): iterate `publishedVersions`, filter
to status `available`, parse each version (failing hard, per the §9
resolution), and retain the *maximum* version by standard semver
ordering among those satisfying the constraint; empty if none
satisfies. -/
def resolveSpecLoop (c : Constraint) :
    List ModVersion → Option (String × SemVer) →
      Except TError (Option (String × SemVer))
  | [], best => .ok best
  | mv :: rest, best =>
    if mv.status = "available" then
      match newVersion mv.version with
      | none => .error (.other "invalid semantic version")
      | some v =>
        resolveSpecLoop c rest
          (if c.check v then
            match best with
            | none => some (mv.version, v)
            | some (bs, bv) =>
                if semverLt bv v then some (mv.version, v) else some (bs, bv)
          else best)
    else resolveSpecLoop c rest best

/-- Spec-side resolver (§4.4), for comparison with the source's
`getLatestCompatibleVersion`. -/
def resolveLatestCompatibleSpec (constraintExpr : String)
    (published : List ModVersion) : Except TError String :=
  match newConstraint constraintExpr with
  | none => .error (.other "improper constraint")
  | some c =>
    (resolveSpecLoop c published none).map fun r => (r.map Prod.fst).getD ""

/-- C1 (counterexample) -- with the catalogue listed newest-first, the
source engine keeps the *last* satisfying entry and returns `1.0.0`,
not the semver maximum `2.0.0` that the claim requires (the spec-side
resolver shown for contrast). -/
theorem latest_compatible_not_maximum :
    getLatestCompatibleVersion "*"
        [⟨"2.0.0", "available"⟩, ⟨"1.0.0", "available"⟩]
      = .ok "1.0.0"
    ∧ resolveLatestCompatibleSpec "*"
        [⟨"2.0.0", "available"⟩, ⟨"1.0.0", "available"⟩]
      = .ok "2.0.0"
    ∧ ("1.0.0" : String) ≠ "2.0.0" := by
  refine ⟨by rfl, by rfl, by decide⟩

/-- Does an entry survive the loop's filter: status `available` and a
version parsing to a semver satisfying the constraint. -/
def compatibleEntry (c : Constraint) (mv : ModVersion) : Bool :=
  mv.status == "available" &&
    (match newVersion mv.version with
     | some v => c.check v
     | none => false)

/-- Error-free mirror of `getLatestCompatibleLoop`, keeping the last
accepted entry's version. -/
def lastCompatibleLoop (c : Constraint) :
    List ModVersion → String → String
  | [], latest => latest
  | mv :: rest, latest =>
    if mv.status = "available" then
      match newVersion mv.version with
      | none => lastCompatibleLoop c rest latest
      | some v =>
        lastCompatibleLoop c rest (if c.check v then mv.version else latest)
    else lastCompatibleLoop c rest latest

theorem getLatestCompatibleLoop_eq_last (c : Constraint) :
    ∀ (l : List ModVersion) (acc : String),
      (∀ mv ∈ l, mv.status = "available" → (newVersion mv.version).isSome) →
      getLatestCompatibleLoop c l acc = .ok (lastCompatibleLoop c l acc) := by
  intro l
  induction l with
  | nil => intro acc _; rfl
  | cons mv rest ih =>
    intro acc hp
    have hrest : ∀ m ∈ rest, m.status = "available" →
        (newVersion m.version).isSome :=
      fun m hm => hp m (List.mem_cons_of_mem _ hm)
    by_cases hs : mv.status = "available"
    · cases hv : newVersion mv.version with
      | none =>
        have hsome := hp mv (List.mem_cons_self _ _) hs
        rw [hv] at hsome
        exact absurd hsome (by simp)
      | some v =>
        simp only [getLatestCompatibleLoop, lastCompatibleLoop]
        rw [if_pos hs, if_pos hs, hv]
        exact ih _ hrest
    · simp only [getLatestCompatibleLoop, lastCompatibleLoop]
      rw [if_neg hs, if_neg hs]
      exact ih _ hrest

/-- Helper `lastCompatibleLoop` keeps exactly the last surviving entry of the
catalogue, in list order. -/
theorem lastCompatibleLoop_eq_getLastD (c : Constraint) :
    ∀ (l : List ModVersion) (acc : String),
      lastCompatibleLoop c l acc
        = (((l.filter (compatibleEntry c)).map ModVersion.version).getLastD acc) := by
  intro l
  induction l with
  | nil => intro acc; rfl
  | cons mv rest ih =>
    intro acc
    by_cases hs : mv.status = "available"
    · cases hv : newVersion mv.version with
      | none =>
        have he : compatibleEntry c mv = false := by
          simp [compatibleEntry, hv]
        simp only [lastCompatibleLoop, List.filter_cons, he]
        rw [if_pos hs, hv]
        simp only [Bool.false_eq_true, if_false]
        exact ih acc
      | some v =>
        by_cases hc : c.check v = true
        · have he : compatibleEntry c mv = true := by
            simp [compatibleEntry, hs, hv, hc]
          simp only [lastCompatibleLoop, List.filter_cons, he, if_true,
            List.map_cons, List.getLastD_cons]
          rw [if_pos hs, hv]
          simp only [hc, if_true]
          exact ih mv.version
        · have he : compatibleEntry c mv = false := by
            simp [compatibleEntry, hs, hv, hc]
          simp only [lastCompatibleLoop, List.filter_cons, he,
            Bool.false_eq_true, if_false]
          rw [if_pos hs, hv]
          simp only [hc, Bool.false_eq_true, if_false]
          exact ih acc
    · have he : compatibleEntry c mv = false := by simp [compatibleEntry, hs]
      simp only [lastCompatibleLoop, List.filter_cons, he,
        Bool.false_eq_true, if_false]
      rw [if_neg hs]
      exact ih acc

/-- C1 (amended) -- whenever the constraint expression parses and every
`available` catalogue entry parses as semver, `getLatestCompatibleVersion`
returns the version of the last entry in list order with status
`available` satisfying the constraint, or the empty string if none
satisfies: list position, not semantic-version order, decides among
multiple matches, and an unparseable `available` entry fails the whole
call. -/
theorem latest_compatible_is_last_in_list_order
    (version : String) (c : Constraint) (modVersions : List ModVersion)
    (hc : newConstraint version = some c)
    (hp : ∀ mv ∈ modVersions, mv.status = "available" →
      (newVersion mv.version).isSome) :
    getLatestCompatibleVersion version modVersions
      = .ok (((modVersions.filter (compatibleEntry c)).map
          ModVersion.version).getLastD "") := by
  unfold getLatestCompatibleVersion
  rw [hc]
  show getLatestCompatibleLoop c modVersions "" = _
  rw [getLatestCompatibleLoop_eq_last c modVersions "" hp,
    lastCompatibleLoop_eq_getLastD c modVersions ""]

/-- Closed instantiation of `latest_compatible_is_last_in_list_order` at
the two-entry catalogue of the counterexample. -/
theorem latest_compatible_last_witness :
    getLatestCompatibleVersion "*"
        [⟨"2.0.0", "available"⟩, ⟨"1.0.0", "available"⟩]
      = .ok ((([⟨"2.0.0", "available"⟩,
            (⟨"1.0.0", "available"⟩ : ModVersion)].filter
              (compatibleEntry .wildcard)).map ModVersion.version).getLastD "") :=
  latest_compatible_is_last_in_list_order "*" .wildcard
    [⟨"2.0.0", "available"⟩, ⟨"1.0.0", "available"⟩]
    (by rfl) (by decide)

/-- Retry budget of `waitForInstallation` ("retry for 15 minutes"). -/
def maxRetries : Nat := 40

/-- Sleep interval between polls, in seconds (`20 * time.Second`). -/
def sleepSeconds : Nat := 20

/-- The fields `client.ReadMod` returns for an installed mod. -/
structure ModInfo where
  parent : String
  org : String
  mod : String
  version : String
deriving DecidableEq, Repr

/-- The API client as the mod controller consumes it (an oracle of
response functions).  `installMod` returns the new mod's `Turbot.Id`.
The installed version a `ReadResource` poll reports varies over time
while installation progresses remotely, so `installedVersion modId i` is
the sentinel property value at the i-th poll; `none` models a `nil`
`Data["version"]`. -/
structure ModClient where
  getModVersions : String → String → Except TError (List ModVersion)
  installMod : String → String → String → String → Except TError String
  installedVersion : String → Nat → Except TError (Option String)
  resolveParentAkas : String → Except TError (List String)
  readMod : String → Except TError ModInfo

/-- Function `getInstalledModVersion`: read the sentinel property
`turbot.custom.installedVersion` of the mod resource; a `nil` value
reads as `""`. -/
def getInstalledModVersion (cl : ModClient) (modId : String) (i : Nat) :
    Except TError String :=
  match cl.installedVersion modId i with
  | .error e => .error e
  | .ok none => .ok ""
  | .ok (some v) => .ok v

/-- Outcome of `waitForInstallation`, instrumented with the number of
polls made and sleeps taken (each sleep lasting `sleepSeconds`). -/
structure WaitOut where
  err : Option TError
  polls : Nat
  sleeps : Nat
deriving DecidableEq, Repr

/-- The `for retryCount < maxRetries` loop of `waitForInstallation`,
recursing on the remaining retry budget: poll, propagate a poll error
immediately, stop on a version match, otherwise sleep and retry; an
exhausted budget yields the fixed timeout error. -/
def waitLoop (cl : ModClient) (modId targetVersion : String) :
    Nat → Nat → WaitOut
  | _, 0 => ⟨some (.other "Turbot mod installation timed out"), 0, 0⟩
  | retryCount, remaining + 1 =>
    match getInstalledModVersion cl modId retryCount with
    | .error e => ⟨some e, 1, 0⟩
    | .ok installedVersion =>
      if installedVersion = targetVersion then ⟨none, 1, 0⟩
      else
        let r := waitLoop cl modId targetVersion (retryCount + 1) remaining
        ⟨r.err, r.polls + 1, r.sleeps + 1⟩

def waitForInstallation (cl : ModClient) (modId targetVersion : String) :
    WaitOut :=
  waitLoop cl modId targetVersion 0 maxRetries

theorem waitLoop_mismatch (cl : ModClient) (modId tv : String) :
    ∀ (remaining rc : Nat),
      (∀ i, rc ≤ i → i < rc + remaining →
        ∃ v, getInstalledModVersion cl modId i = .ok v ∧ v ≠ tv) →
      waitLoop cl modId tv rc remaining
        = ⟨some (.other "Turbot mod installation timed out"),
            remaining, remaining⟩ := by
  intro remaining
  induction remaining with
  | zero => intro rc _; rfl
  | succ n ih =>
    intro rc h
    obtain ⟨v, hv, hne⟩ := h rc (le_refl _) (by omega)
    simp only [waitLoop, hv]
    rw [if_neg hne, ih (rc + 1) (fun i h1 h2 => h i (by omega) (by omega))]

theorem waitLoop_polls_le (cl : ModClient) (modId tv : String) :
    ∀ remaining rc, (waitLoop cl modId tv rc remaining).polls ≤ remaining := by
  intro remaining
  induction remaining with
  | zero => intro rc; exact Nat.le_refl 0
  | succ n ih =>
    intro rc
    simp only [waitLoop]
    cases hv : getInstalledModVersion cl modId rc with
    | error e => simp
    | ok v =>
      by_cases h : v = tv
      · simp [h]
      · simp only [h, if_false]
        exact Nat.succ_le_succ (ih (rc + 1))

/-- C9 -- when no poll errors and the installed version never reaches the
target, the wait performs exactly the budgeted 40 polls, sleeps the full
20-second interval between retries (40 sleeps, ≈ budget × interval
elapsed), then stops with the distinct timeout error; and on any client
whatsoever the poll count never exceeds the budget. -/
theorem wait_times_out_after_exact_budget
    (cl : ModClient) (modId targetVersion : String)
    (hnv : ∀ i, i < maxRetries →
      ∃ v, getInstalledModVersion cl modId i = .ok v ∧ v ≠ targetVersion) :
    waitForInstallation cl modId targetVersion
      = ⟨some (.other "Turbot mod installation timed out"),
          maxRetries, maxRetries⟩
    ∧ maxRetries = 40 ∧ sleepSeconds = 20
    ∧ ∀ (cl' : ModClient) (modId' tv' : String),
        (waitForInstallation cl' modId' tv').polls ≤ maxRetries := by
  refine ⟨?_, rfl, rfl, fun cl' modId' tv' => waitLoop_polls_le cl' modId' tv' maxRetries 0⟩
  exact waitLoop_mismatch cl modId targetVersion maxRetries 0
    (fun i h1 h2 => hnv i (by omega))

/-- A client whose reported installed version is permanently `0.0.1`:
installation never converges. -/
def modClientStuck : ModClient where
  getModVersions := fun _ _ => .ok [⟨"1.0.0", "available"⟩]
  installMod := fun _ _ _ _ => .ok "mod-1"
  installedVersion := fun _ _ => .ok (some "0.0.1")
  resolveParentAkas := fun _ => .ok ["p-aka"]
  readMod := fun _ => .ok ⟨"p-aka", "o", "m", "1.0.0"⟩

/-- Closed instantiation of `wait_times_out_after_exact_budget` on the
stuck client. -/
theorem wait_times_out_witness :
    waitForInstallation modClientStuck "mod-1" "9.9.9"
      = ⟨some (.other "Turbot mod installation timed out"),
          maxRetries, maxRetries⟩
    ∧ maxRetries = 40 ∧ sleepSeconds = 20
    ∧ ∀ (cl' : ModClient) (modId' tv' : String),
        (waitForInstallation cl' modId' tv').polls ≤ maxRetries :=
  wait_times_out_after_exact_budget modClientStuck "mod-1" "9.9.9"
    (fun i _ => ⟨"0.0.1", rfl, by decide⟩)

/-- Local state of one `turbot_mod` resource instance. -/
structure ModData where
  id : String
  parent : String
  org : String
  mod : String
  version : String
  latest_compatible_version : String
  parent_akas : Option (List String)
deriving DecidableEq, Repr

/-- Function `getLatestCompatibleVersion` as the controller calls it: fetch the
catalogue for the declared org/mod through the client, then resolve the
declared version constraint against it. -/
def getLatestCompatibleVersionM (cl : ModClient) (d : ModData) :
    Except TError String :=
  match cl.getModVersions d.org d.mod with
  | .error e => .error e
  | .ok modVersions => getLatestCompatibleVersion d.version modVersions

/-- Modelled from the spec: the two-argument `setParentAkas(d, meta)`
helper the mod controller calls is not among the provided sources (only
the resource controller's three-argument variant is).  Per §4.2 it
resolves the parent's aka list through the client and persists it into
the local `parent_akas` field, propagating any failure. -/
def setParentAkasSpec (cl : ModClient) (d : ModData) : Except TError ModData :=
  match cl.resolveParentAkas d.parent with
  | .error e => .error e
  | .ok akas => .ok {d with parent_akas := some akas}

/-- Function `modInstall`: resolve the target version, install through the client,
poll for convergence — the poll's return value is *discarded* by the
source (`waitForInstallation(modId, targetVersion, client)` with no
`err =` assignment) — then persist parent akas, the id and the resolved
version. -/
def modInstall (cl : ModClient) (d : ModData) : ModData × Option TError :=
  match getLatestCompatibleVersionM cl d with
  | .error e => (d, some e)
  | .ok targetVersion =>
    match cl.installMod d.parent d.org d.mod d.version with
    | .error e => (d, some e)
    | .ok modId =>
      let _ := waitForInstallation cl modId targetVersion
      match setParentAkasSpec cl d with
      | .error e => (d, some e)
      | .ok d1 =>
        ({d1 with id := modId, latest_compatible_version := targetVersion},
          none)

/-- Function `resourceTurbotModRead`: read the mod, clearing the local id on a
not-found error; re-resolve the latest compatible version; persist
parent akas and the returned fields. -/
def resourceTurbotModRead (cl : ModClient) (d : ModData) :
    ModData × Option TError :=
  match cl.readMod d.id with
  | .error e =>
    if notFoundError e then ({d with id := ""}, some e) else (d, some e)
  | .ok m =>
    match getLatestCompatibleVersionM cl d with
    | .error e => (d, some e)
    | .ok targetVersion =>
      match setParentAkasSpec cl d with
      | .error e => (d, some e)
      | .ok d1 =>
        ({d1 with
            parent := m.parent, org := m.org, mod := m.mod,
            version := m.version,
            latest_compatible_version := targetVersion}, none)

/-- Declared state used in the stuck-installation scenario. -/
def dStuck : ModData := ⟨"", "p-aka", "o", "m", "*", "", none⟩

/-- C2 -- with a client that never converges, `waitForInstallation`
exhausts its budget and produces the timeout error, yet `modInstall`
still completes successfully: the discarded poll result means the id is
assigned and no error is surfaced, contradicting the fatal-timeout
propagation policy. -/
theorem mod_install_swallows_timeout :
    (waitForInstallation modClientStuck "mod-1" "1.0.0").err
      = some (.other "Turbot mod installation timed out")
    ∧ (modInstall modClientStuck dStuck).2 = none
    ∧ (modInstall modClientStuck dStuck).1.id = "mod-1" :=
  ⟨rfl, rfl, rfl⟩

/-- Function `supressIfLatestCompatibleVersionInstalled`: the body is
`return false`; the comparison against `latest_compatible_version` is
commented out in the source. -/
def supressIfLatestCompatibleVersionInstalled (k old newValue : String)
    (d : ModData) : Bool :=
  false

/-- C10 -- the version diff-suppression predicate returns false on every
input, even though both the install and the read path do compute the
latest compatible version and persist it into the
`latest_compatible_version` field of the final state. -/
theorem version_diff_never_suppressed :
    (∀ k old newValue d,
      supressIfLatestCompatibleVersionInstalled k old newValue d = false)
    ∧ (∀ cl d d', modInstall cl d = (d', none) →
        getLatestCompatibleVersionM cl d = .ok d'.latest_compatible_version)
    ∧ (∀ cl d d', resourceTurbotModRead cl d = (d', none) →
        getLatestCompatibleVersionM cl d = .ok d'.latest_compatible_version) := by
  refine ⟨fun _ _ _ _ => rfl, ?_, ?_⟩
  · intro cl d d' h
    unfold modInstall at h
    cases hg : getLatestCompatibleVersionM cl d with
    | error e => simp only [hg] at h; simp at h
    | ok tv =>
      simp only [hg] at h
      cases hi : cl.installMod d.parent d.org d.mod d.version with
      | error e => simp only [hi] at h; simp at h
      | ok modId =>
        simp only [hi] at h
        cases hs : setParentAkasSpec cl d with
        | error e => simp only [hs] at h; simp at h
        | ok d1 =>
          simp only [hs] at h
          rw [Prod.mk.injEq] at h
          obtain ⟨h1, -⟩ := h
          rw [← h1]
  · intro cl d d' h
    unfold resourceTurbotModRead at h
    cases hr : cl.readMod d.id with
    | error e =>
      simp only [hr] at h
      by_cases hn : notFoundError e = true
      · rw [if_pos hn] at h; simp at h
      · rw [if_neg hn] at h; simp at h
    | ok m =>
      simp only [hr] at h
      cases hg : getLatestCompatibleVersionM cl d with
      | error e => simp only [hg] at h; simp at h
      | ok tv =>
        simp only [hg] at h
        cases hs : setParentAkasSpec cl d with
        | error e => simp only [hs] at h; simp at h
        | ok d1 =>
          simp only [hs] at h
          rw [Prod.mk.injEq] at h
          obtain ⟨h1, -⟩ := h
          rw [← h1]

/-- The state `modInstall` produces on the stuck client. -/
def dInstalled : ModData :=
  ⟨"mod-1", "p-aka", "o", "m", "*", "1.0.0", some ["p-aka"]⟩

/-- The state `resourceTurbotModRead` produces on the stuck client. -/
def dReadBack : ModData :=
  ⟨"", "p-aka", "o", "m", "1.0.0", "1.0.0", some ["p-aka"]⟩

/-- Closed instantiation of `version_diff_never_suppressed` on the stuck
client and declared state. -/
theorem version_diff_never_suppressed_witness :
    supressIfLatestCompatibleVersionInstalled "version" "1.0.0" "*" dStuck
      = false
    ∧ getLatestCompatibleVersionM modClientStuck dStuck
        = .ok dInstalled.latest_compatible_version
    ∧ getLatestCompatibleVersionM modClientStuck dStuck
        = .ok dReadBack.latest_compatible_version :=
  ⟨version_diff_never_suppressed.1 "version" "1.0.0" "*" dStuck,
   version_diff_never_suppressed.2.1 modClientStuck dStuck dInstalled rfl,
   version_diff_never_suppressed.2.2 modClientStuck dStuck dReadBack rfl⟩

/-- Turbot metadata block of a resource returned by `ReadResource`; the
`akas` slice may be `nil` (`none`). -/
structure RTurbot where
  id : String
  parentId : String
  akas : Option (List String)
deriving DecidableEq, Repr

/-- A resource returned by `client.ReadResource`. -/
structure RResource where
  turbot : RTurbot
  data : List (String × JVal)
deriving DecidableEq, Repr

/-- A folder returned by `client.ReadFolder`. -/
structure Folder where
  turbot : RTurbot
  parent : String
  title : String
  description : String
deriving DecidableEq, Repr

/-- A control returned by `client.ReadControl`. -/
structure Control where
  typeUri : String
  state : String
  reason : String
  details : String
  turbot : List (String × String)
deriving DecidableEq, Repr

/-- The API client as the resource, folder and control controllers
consume it (an oracle of response functions). -/
structure ApiClient where
  readResource : String → Option (List (String × String)) →
    Except TError RResource
  getResourceAkas : String → Except TError (List String)
  readFolder : String → Except TError Folder
  readControl : String → Except TError Control

/-- Local state of one `turbot_resource` instance. -/
structure RData where
  id : String
  parent : String
  resourceType : String
  body : JsonText
  parent_akas : Option (List String)
deriving DecidableEq, Repr

/-- Function `setParentAkas(parentId, d, meta)` of the resource controller: load
the parent resource; when it has no akas the source computes the
`[parentId]` fallback into a local — but then persists
`parent.Turbot.Akas`, the *unpatched* value, on its final line.  A `nil`
slice handed to `d.Set` leaves the stored list absent (`none`). -/
def setParentAkas (parentId : String) (d : RData) (cl : ApiClient) :
    Except TError RData :=
  match cl.readResource parentId none with
  | .error err => .error err
  | .ok parent =>
    let parentAkas :=
      match parent.turbot.akas with
      | none => [parentId]
      | some akas => akas
    .ok {d with parent_akas := parent.turbot.akas}

/-- Function `resourceTurbotResourceRead`: derive the requested property set from
the locally stored body, read the resource — clearing the id when the
failure is NotFound, and returning the error in every failure case —
then rebuild the body from the returned data and persist parent akas,
parent and body. -/
def resourceTurbotResourceRead (cl : ApiClient) (d : RData) :
    RData × Option TError :=
  match propertiesFromBody d.body with
  | .error e =>
    (d, some (.other ("error retrieving properties from resource body: " ++ e)))
  | .ok properties =>
    match cl.readResource d.id (some properties) with
    | .error err =>
      if notFoundError err then ({d with id := ""}, some err)
      else (d, some err)
    | .ok resource =>
      match bodyFromProperties resource.data with
      | .error e => (d, some (.other ("error building resource body: " ++ e)))
      | .ok body =>
        match setParentAkas resource.turbot.parentId d cl with
        | .error e => (d, some e)
        | .ok d1 =>
          ({d1 with parent := resource.turbot.parentId, body := body}, none)

/-- Local state of one `turbot_folder` instance. -/
structure FolderData where
  id : String
  parent : String
  title : String
  description : String
  parent_akas : Option (List String)
deriving DecidableEq, Repr

/-- Function `resourceTurbotFolderRead`: read the folder — clearing the id when
the failure is NotFound, and returning the error in every failure
case — then fetch and persist the parent akas and the returned
fields. -/
def resourceTurbotFolderRead (cl : ApiClient) (d : FolderData) :
    FolderData × Option TError :=
  match cl.readFolder d.id with
  | .error err =>
    if notFoundError err then ({d with id := ""}, some err)
    else (d, some err)
  | .ok folder =>
    match cl.getResourceAkas folder.turbot.parentId with
    | .error e => (d, some e)
    | .ok parentAkas =>
      ({d with
          parent_akas := some parentAkas, parent := folder.parent,
          title := folder.title, description := folder.description}, none)

/-- A client whose parent resource `p1` exists but carries a `nil` akas
slice. -/
def clientNilAkas : ApiClient where
  readResource := fun _ _ => .ok ⟨⟨"p1", "r0", none⟩, []⟩
  getResourceAkas := fun _ => .ok []
  readFolder := fun _ => .error (.other "unused")
  readControl := fun _ => .error (.other "unused")

/-- Declared state of a resource whose parent is `p1`. -/
def dResource : RData :=
  ⟨"r-1", "p1", "turbot#resource", .valid [("title", .str "t")], none⟩

/-- C3 -- for a parent with no recorded aliases, `setParentAkas` succeeds
but persists the raw `nil` akas slice instead of the `[parentId]`
fallback it just computed: `parent_akas` stays absent, never the
single-element `["p1"]` the claim (and the source's own comment:
"if this resource has no akas, just use the id") requires. -/
theorem set_parent_akas_drops_fallback :
    setParentAkas "p1" dResource clientNilAkas
      = .ok {dResource with parent_akas := none}
    ∧ ({dResource with parent_akas := (none : Option (List String))}).parent_akas
      ≠ some ["p1"] :=
  ⟨rfl, by decide⟩

/-- A client whose every read fails with a NotFound error. -/
def clientNotFound : ApiClient where
  readResource := fun _ _ => .error (.notFound "resource not found")
  getResourceAkas := fun _ => .error (.notFound "resource not found")
  readFolder := fun _ => .error (.notFound "folder not found")
  readControl := fun _ => .error (.notFound "control not found")

/-- C4 (counterexample) -- a NotFound read does clear the id, but the
read still reports failure: the controller returns the NotFound error
rather than success. -/
theorem read_not_found_still_errors :
    (resourceTurbotResourceRead clientNotFound dResource).1.id = ""
    ∧ (resourceTurbotResourceRead clientNotFound dResource).2
        = some (.notFound "resource not found")
    ∧ (resourceTurbotResourceRead clientNotFound dResource).2 ≠ none :=
  ⟨rfl, rfl, by decide⟩

/-- C4 (amended) -- on a failed remote read the controllers clear the
local id exactly when the failure is NotFound (leaving it unchanged
otherwise) but in *every* failure case, NotFound included, still
propagate the error verbatim; resource and folder controllers behave
alike. -/
theorem read_failure_clears_id_iff_not_found :
    (∀ (cl : ApiClient) (d : RData) props err,
      propertiesFromBody d.body = .ok props →
      cl.readResource d.id (some props) = .error err →
      resourceTurbotResourceRead cl d
        = (if notFoundError err then {d with id := ""} else d, some err))
    ∧ (∀ (cl : ApiClient) (fd : FolderData) err,
      cl.readFolder fd.id = .error err →
      resourceTurbotFolderRead cl fd
        = (if notFoundError err then {fd with id := ""} else fd, some err)) := by
  constructor
  · intro cl d props err hp hr
    unfold resourceTurbotResourceRead
    simp only [hp, hr]
    by_cases hn : notFoundError err = true <;> simp [hn]
  · intro cl fd err hr
    unfold resourceTurbotFolderRead
    simp only [hr]
    by_cases hn : notFoundError err = true <;> simp [hn]

/-- Declared state of a folder. -/
def dFolder : FolderData := ⟨"f-1", "p1", "T", "D", none⟩

/-- Closed instantiation of `read_failure_clears_id_iff_not_found` on
the all-NotFound client. -/
theorem read_failure_clears_id_witness :
    resourceTurbotResourceRead clientNotFound dResource
      = (if notFoundError (.notFound "resource not found") then
          {dResource with id := ""} else dResource,
         some (.notFound "resource not found"))
    ∧ resourceTurbotFolderRead clientNotFound dFolder
      = (if notFoundError (.notFound "folder not found") then
          {dFolder with id := ""} else dFolder,
         some (.notFound "folder not found")) :=
  ⟨read_failure_clears_id_iff_not_found.1 clientNotFound dResource
      [("title", "title")] (.notFound "resource not found") rfl rfl,
   read_failure_clears_id_iff_not_found.2 clientNotFound dFolder
      (.notFound "folder not found") rfl⟩

/-- Local state of the `turbot_control` data source: the schema fields
`id`, `uri`, `resource` plus the computed ones; `internalId` is the
Terraform-internal id set through `d.SetId`. -/
structure ControlData where
  idField : String
  uri : String
  resource : String
  state : String
  reason : String
  details : String
  turbot : List (String × String)
  internalId : String
deriving DecidableEq, Repr

/-- Lookup in a Go string map (`control.Turbot["id"]`); a missing key
yields the empty string. -/
def smapGet (m : List (String × String)) (k : String) : String :=
  match m.find? (fun p => p.1 == k) with
  | some p => p.2
  | none => ""

/-- The selector argument built by `dataSourceTurbotControlRead` (source
lines 50-58).  Note the source reads `resourceId` from the **uri**
field: `resourceId := d.Get("uri").(string)`. -/
def controlReadArgs (d : ControlData) : String :=
  let controlUri := d.uri
  let resourceId := d.uri
  if controlUri ≠ "" ∧ resourceId ≠ "" then
    "uri: " ++ controlUri ++ ", resourceId: " ++ resourceId
  else
    "id: " ++ d.idField

/-- Function `dataSourceTurbotControlRead`: build the selector, read the control
(clearing the internal id on NotFound, returning the error on every
failure), then persist the returned fields. -/
def dataSourceTurbotControlRead (cl : ApiClient) (d : ControlData) :
    ControlData × Option TError :=
  match cl.readControl (controlReadArgs d) with
  | .error err =>
    if notFoundError err then ({d with internalId := ""}, some err)
    else (d, some err)
  | .ok control =>
    ({d with
        internalId := smapGet control.turbot "id",
        uri := control.typeUri,
        resource := smapGet control.turbot "resourceId",
        state := control.state, reason := control.reason,
        details := control.details, turbot := control.turbot}, none)

/-- Control data-source state with id `i`, uri `u` and resource `r` all
set and non-empty. -/
def dControl : ControlData := ⟨"i", "u", "r", "", "", "", [], ""⟩

/-- C5 -- with id, uri and resource all set, the selector handed to
`readControl` is `uri: u, resourceId: u`: the resourceId slot is filled
from the `uri` field, not the claimed `(uri, resourceId)` pair
`uri: u, resourceId: r`; indeed the declared `resource` field never
influences the selector at all. -/
theorem control_selector_uses_uri_for_resource_id :
    controlReadArgs dControl = "uri: u, resourceId: u"
    ∧ "uri: u, resourceId: u" ≠ "uri: u, resourceId: r"
    ∧ ∀ d : ControlData, controlReadArgs d = controlReadArgs {d with resource := ""} :=
  ⟨rfl, by decide, fun d => rfl⟩

end Turbot
